import Mathlib

/-!
Verification development for the aidmslog log-record manager.

The Go sources are shallowly embedded:
* strings are modelled as `List Char` (`Chars`), so that the byte-level
  operations of `backend_file.go` (`strings.TrimSpace`, `strings.Index`,
  `strings.SplitN`, `fmt.Sprintf` padding) become executable Lean functions
  provable by structural induction;
* `time.Time` is modelled at second granularity as a `DateTime` record; the
  Go formatting/parsing with layout `time.RFC3339` is modelled for UTC
  instants as the strict `YYYY-MM-DDTHH:MM:SSZ` shape, including Go's
  calendar validation (month/day ranges, leap years);
* the file backend's `sync.Mutex` is modelled explicitly: an operation that
  tries to acquire an already-held (non-reentrant) mutex returns `none`,
  i.e. it blocks forever, since no other goroutine holds the lock;
* the asynchronous pipeline of `log_manager.go` (buffered channel of
  capacity 1000, single consumer goroutine, drain-on-close) is modelled as a
  small-step transition system over the queue contents, the sequence of
  backend `Write` calls, and the sequence of accepted submissions.
-/

namespace Aidmslog

/-- Strings are modelled as lists of characters. -/
abbrev Chars := List Char

/-! ## Character and string helpers (models of the Go `strings` functions) -/

/-- Model of the whitespace class stripped by `strings.TrimSpace`, i.e.
Go's `unicode.IsSpace`: the Unicode White_Space code points
`'\t'`, `'\n'`, `'\v'`, `'\f'`, `'\r'`, `' '`, U+0085, U+00A0, U+1680,
U+2000..U+200A, U+2028, U+2029, U+202F, U+205F and U+3000. -/
def isSpaceChar (c : Char) : Bool :=
  c.toNat = 0x20 || (0x9 ≤ c.toNat && c.toNat ≤ 0xD) ||
  c.toNat = 0x85 || c.toNat = 0xA0 || c.toNat = 0x1680 ||
  (0x2000 ≤ c.toNat && c.toNat ≤ 0x200A) ||
  c.toNat = 0x2028 || c.toNat = 0x2029 || c.toNat = 0x202F ||
  c.toNat = 0x205F || c.toNat = 0x3000

/-- Model of `strings.TrimSpace`: drop whitespace from both ends. -/
def trimSpace (l : Chars) : Chars :=
  ((l.dropWhile isSpaceChar).reverse.dropWhile isSpaceChar).reverse

/-- Model of `strings.Index(line, "]")`: index of the first `']'`, if any
(Go returns -1 when absent; we return `none`). -/
def idxOf (c : Char) : Chars → Option Nat
  | [] => none
  | x :: xs => if x = c then some 0 else (idxOf c xs).map (· + 1)

/-- Model of `strings.SplitN(rest, ":", 2)`: split at the first `':'`.
Go returns a one-element slice when there is no colon, which the caller
rejects (`len(parts) != 2`); we model that case as `none`. -/
def splitOnceColon : Chars → Option (Chars × Chars)
  | [] => none
  | c :: cs =>
    if c = ':' then some ([], cs)
    else (splitOnceColon cs).map (fun p => (c :: p.1, p.2))

/-- Split a written byte sequence into lines at `'\n'` (model of how
`bufio.Scanner` decomposes the file contents). -/
def splitOnNl : Chars → List Chars
  | [] => [[]]
  | c :: cs =>
    if c = '\n' then [] :: splitOnNl cs
    else
      match splitOnNl cs with
      | [] => [[c]]
      | l :: ls => (c :: l) :: ls

/-- Does `s` start with `sub`?  (Helper for the substring search.) -/
def leadsWith : Chars → Chars → Bool
  | _, [] => true
  | [], _ :: _ => false
  | c :: cs, d :: ds => c = d && leadsWith cs ds

/-- Model of `strings.Contains(message, sub)`: substring search. -/
def containsSub : Chars → Chars → Bool
  | s, sub =>
    match s with
    | [] => sub.isEmpty
    | _ :: cs => leadsWith s sub || containsSub cs sub

/-! ## DateTime: the model of `time.Time` at second granularity -/

/-- A UTC wall-clock instant at second granularity, the model of the
`time.Time` values that survive a `Format(time.RFC3339)` round trip. -/
structure DateTime where
  year : Nat
  month : Nat
  day : Nat
  hour : Nat
  minute : Nat
  second : Nat
deriving DecidableEq

/-- Leap-year test, as in Go's `time` package calendar arithmetic. -/
def isLeap (y : Nat) : Bool :=
  (y % 4 = 0 && y % 100 ≠ 0) || y % 400 = 0

/-- Days in a month, used by Go's date validation when parsing. -/
def daysInMonth (y m : Nat) : Nat :=
  if m = 2 then (if isLeap y then 29 else 28)
  else if m = 4 ∨ m = 6 ∨ m = 9 ∨ m = 11 then 30
  else 31

/-- A `DateTime` whose fields are in calendar range and whose year is
four-digit printable (Go's RFC3339 formatter requires 0 ≤ year ≤ 9999). -/
def DateTime.Valid (t : DateTime) : Prop :=
  t.year ≤ 9999 ∧ 1 ≤ t.month ∧ t.month ≤ 12 ∧
  1 ≤ t.day ∧ t.day ≤ daysInMonth t.year t.month ∧
  t.hour ≤ 23 ∧ t.minute ≤ 59 ∧ t.second ≤ 59

instance (t : DateTime) : Decidable t.Valid := by
  unfold DateTime.Valid; infer_instance

/-- Linearization of a valid `DateTime`, order-isomorphic to the instant it
denotes; used to model `time.Time.Before` / `time.Time.After`. -/
def dtKey (t : DateTime) : Nat :=
  ((((t.year * 13 + t.month) * 32 + t.day) * 24 + t.hour) * 60 + t.minute) * 60
    + t.second

/-- Model of `entry.Timestamp.Before(u)`. -/
def dtBefore (t u : DateTime) : Bool := dtKey t < dtKey u

/-- Model of `entry.Timestamp.After(u)`. -/
def dtAfter (t u : DateTime) : Bool := dtKey u < dtKey t

/-- Numeric value of an ASCII digit character, `none` otherwise. -/
def digitVal (c : Char) : Option Nat :=
  if '0' ≤ c ∧ c ≤ '9' then some (c.toNat - '0'.toNat) else none

/-- Two-digit decimal field of a Go time layout. -/
def digits2 (a b : Char) : Option Nat := do
  let x ← digitVal a
  let y ← digitVal b
  pure (10 * x + y)

/-- Four-digit decimal field of a Go time layout. -/
def digits4 (a b c d : Char) : Option Nat := do
  let x ← digits2 a b
  let y ← digits2 c d
  pure (100 * x + y)

/-- Zero-padded two-digit rendering. -/
def pad2 (n : Nat) : Chars := [Nat.digitChar (n / 10), Nat.digitChar (n % 10)]

/-- Zero-padded four-digit rendering. -/
def pad4 (n : Nat) : Chars :=
  [Nat.digitChar (n / 1000), Nat.digitChar (n / 100 % 10),
   Nat.digitChar (n / 10 % 10), Nat.digitChar (n % 10)]

/-- Model of `entry.Timestamp.Format(time.RFC3339)` for a UTC instant:
the 20-character shape `YYYY-MM-DDTHH:MM:SSZ`. -/
def rfc3339 (t : DateTime) : Chars :=
  pad4 t.year ++ '-' :: pad2 t.month ++ '-' :: pad2 t.day ++
    'T' :: pad2 t.hour ++ ':' :: pad2 t.minute ++ ':' :: pad2 t.second ++ ['Z']

/-- Model of `time.Parse(time.RFC3339, tsStr)` restricted to the UTC shape
produced by `rfc3339`: strict punctuation, decimal digits, and Go's
calendar range validation.  Any other string is a parse error (`none`). -/
def parseRFC3339 (s : Chars) : Option DateTime :=
  match s with
  | [y1, y2, y3, y4, '-', m1, m2, '-', d1, d2, 'T',
     h1, h2, ':', n1, n2, ':', s1, s2, 'Z'] => do
    let y ← digits4 y1 y2 y3 y4
    let mo ← digits2 m1 m2
    let d ← digits2 d1 d2
    let h ← digits2 h1 h2
    let mi ← digits2 n1 n2
    let se ← digits2 s1 s2
    if 1 ≤ mo ∧ mo ≤ 12 ∧ 1 ≤ d ∧ d ≤ daysInMonth y mo ∧
        h ≤ 23 ∧ mi ≤ 59 ∧ se ≤ 59 then
      some ⟨y, mo, d, h, mi, se⟩
    else none
  | _ => none

/-! ## Log data model (`pkg/logger/interface.go`) -/

/-- Model of `LogEntry` (level and message are strings; `Metadata` is never
read or written by any backend in this repository and is omitted). -/
structure LogEntry where
  level : Chars
  message : Chars
  timestamp : DateTime
deriving DecidableEq

/-- Model of `LogFilter`. -/
structure LogFilter where
  startTime : Option DateTime
  endTime : Option DateTime
  contains : Chars

/-- Model of the zero value `LogFilter{}` (no bounds, empty substring). -/
def emptyFilter : LogFilter := ⟨none, none, []⟩

/-! ## File backend pure core (`/logger/backend_file.go`) -/

/-- Model of the Go `%-5s` format verb: left-justify in a field of the given
width, i.e. pad with spaces on the right (no padding once the string is at
least that wide, no truncation). -/
def goPadRight (s : Chars) (w : Nat) : Chars :=
  s ++ List.replicate (w - s.length) ' '

/-- Model of the record line built by `FileBackend.Write`:
`fmt.Sprintf("[%s] %-5s: %s\n", timestamp, entry.Level, entry.Message)`,
without the terminating newline (line terminators are handled by
`fileWriteChunk`). -/
def lineOf (e : LogEntry) : Chars :=
  '[' :: rfc3339 e.timestamp ++ ']' :: ' ' :: goPadRight e.level 5 ++
    ':' :: ' ' :: e.message

/-- The chunk of characters a single `FileBackend.Write` appends to the
file: the rendered line plus its terminating `'\n'`, decomposed into the
lines it contributes (a message containing `'\n'` contributes several). -/
def fileWriteChunk (content : List Chars) (e : LogEntry) : List Chars :=
  content ++ splitOnNl (lineOf e)

/-- Model of the helper `applyFilter` in `backend_file.go`: the sequence of
early-`false` returns for the keyword, start-time and end-time conditions. -/
def applyFilter (entry : LogEntry) (filter : LogFilter) : Bool :=
  if !filter.contains.isEmpty && !containsSub entry.message filter.contains then
    false
  else if (match filter.startTime with
           | some st => dtBefore entry.timestamp st
           | none => false) then
    false
  else if (match filter.endTime with
           | some en => dtAfter entry.timestamp en
           | none => false) then
    false
  else
    true

/-- Model of the per-line parsing steps inside `FileBackend.Read`'s scanner
loop: skip empty lines, require a leading `'['`, locate the first `']'`,
parse the timestamp slice `line[1:end]`, trim the remainder, split at the
first colon, and trim the level and message fields.  `none` is a line the
loop `continue`s over (a skipped, malformed line). -/
def parseLine (line : Chars) : Option LogEntry :=
  if line.isEmpty then none
  else match line with
  | '[' :: _ =>
    match idxOf ']' line with
    | none => none
    | some e =>
      match parseRFC3339 ((line.drop 1).take (e - 1)) with
      | none => none
      | some ts =>
        match splitOnceColon (trimSpace (line.drop (e + 1))) with
        | none => none
        | some (lvlPart, msgPart) =>
          some ⟨trimSpace lvlPart, trimSpace msgPart, ts⟩
  | _ => none

/-- Model of the scanner loop of `FileBackend.Read`: parse each line, skip
malformed ones, then apply the level test (`level != "" && entry.Level !=
level` skips) and the struct filter, accumulating survivors in order. -/
def readLines : List Chars → Chars → LogFilter → List LogEntry
  | [], _, _ => []
  | line :: ls, lvl, f =>
    match parseLine line with
    | none => readLines ls lvl f
    | some e =>
      if !lvl.isEmpty && e.level ≠ lvl then readLines ls lvl f
      else if !applyFilter e f then readLines ls lvl f
      else e :: readLines ls lvl f

/-! ## File backend with its mutex (`FileBackend` methods)

Each method of `FileBackend` acquires the non-reentrant `sync.Mutex`
`fb.mu` on entry and releases it on return (`defer fb.mu.Unlock()`).
A method invoked while the mutex is already held blocks forever, because
the single goroutine executing it is also the holder; we model the result
of such a call as `none`. -/

/-- State of a `FileBackend`: whether `fb.mu` is currently held, whether
`fb.file` is non-nil, and the lines of the underlying file. -/
structure FBState where
  muHeld : Bool
  fileOpen : Bool
  content : List Chars
deriving DecidableEq

/-- The error string `"file backend not initialized"`. -/
def errNotInit : Chars := "file backend not initialized".data

/-- Model of `FileBackend.Write`: lock, check `fb.file`, append the rendered
line.  `none` models blocking forever on the mutex. -/
def fileWrite (st : FBState) (e : LogEntry) : Option (Option Chars × FBState) :=
  if st.muHeld then none
  else
    let lk : FBState := { st with muHeld := true }
    if lk.fileOpen = false then some (some errNotInit, { lk with muHeld := false })
    else
      some (none,
        { lk with muHeld := false, content := fileWriteChunk lk.content e })

/-- Model of `FileBackend.Read`: lock, check `fb.file`, scan and filter the
file's lines.  `none` models blocking forever on the mutex. -/
def fileRead (st : FBState) (lvl : Chars) (f : LogFilter) :
    Option ((Option Chars × List LogEntry) × FBState) :=
  if st.muHeld then none
  else
    let lk : FBState := { st with muHeld := true }
    if lk.fileOpen = false then
      some ((some errNotInit, []), { lk with muHeld := false })
    else
      some ((none, readLines lk.content lvl f), { lk with muHeld := false })

/-- The rewrite loop at the end of `FileBackend.ClearLogs`: write each kept
entry back through `fb.Write` (which acquires the mutex again). -/
def rewriteAll : FBState → List LogEntry → Option (Option Chars × FBState)
  | st, [] => some (none, st)
  | st, e :: es =>
    match fileWrite st e with
    | none => none
    | some (some err, st') => some (some err, st')
    | some (none, st') => rewriteAll st' es

/-- Model of `FileBackend.ClearLogs`: lock `fb.mu`, check `fb.file`, call
`fb.Read("", LogFilter{})` (which tries to lock `fb.mu` again), keep the
entries with timestamp strictly after `before`, truncate the file, and
rewrite the kept entries through `fb.Write`.  `none` models blocking
forever on the mutex. -/
def fileClearLogs (st : FBState) (before : DateTime) :
    Option (Option Chars × FBState) :=
  if st.muHeld then none
  else
    let lk : FBState := { st with muHeld := true }
    if lk.fileOpen = false then some (some errNotInit, { lk with muHeld := false })
    else
      match fileRead lk [] emptyFilter with
      | none => none
      | some ((some err, _), st') =>
        some (some ("clear logs failed: ".data ++ err), { st' with muHeld := false })
      | some ((none, logs), st') =>
        let kept := logs.filter (fun e => dtAfter e.timestamp before)
        let truncated : FBState := { st' with content := [] }
        match rewriteAll truncated kept with
        | none => none
        | some (res, stFinal) => some (res, { stFinal with muHeld := false })

/-! ## Asynchronous pipeline (`/logger/log_manager.go`)

`NewLogManager` with `config.Async` creates `logChannel := make(chan
LogEntry, 1000)` and starts a single consumer goroutine
(`startAsyncWorker`).  `WriteLog` submits with a 100 ms backpressure
timeout; `Close` closes `done` and waits for the worker, whose drain loop
writes every still-queued entry to the backend before exiting.

The pipeline is modelled as a transition system over the buffered channel
contents (`queue`), the sequence of entries handed to `backend.Write`
(`written`), and the ghost sequence of entries whose submission returned
success (`accepted`).  Transitions cover any interleaving of producers and
the consumer; `closeAsync` models a `Close` call made after the producers
have stopped, as the manager's contract requires. -/

/-- The buffer size of `logChannel` in `NewLogManager`:
`make(chan LogEntry, 1000)`. -/
def queueCapacity : Nat := 1000

/-- The backpressure timeout of the async `WriteLog` branch, in
milliseconds: `time.After(100 * time.Millisecond)`. -/
def backpressureTimeoutMillis : Nat := 100

/-- Outcome of an async `WriteLog` submission. -/
inductive WriteOutcome where
  | ok : WriteOutcome
  | queueSaturated : WriteOutcome
deriving DecidableEq

/-- Model of the async branch of `WriteLog`: the `select` sending on
`logChannel` succeeds exactly when the bounded buffer has free space at
some moment within the timeout window (`queue` is the buffer contents at
that moment); otherwise the timeout fires, the submission fails with the
channel-full error and the entry is never enqueued. -/
def writeLogAsync (queue : List LogEntry) (e : LogEntry) :
    WriteOutcome × List LogEntry :=
  if queue.length < queueCapacity then (.ok, queue ++ [e])
  else (.queueSaturated, queue)

/-- Pipeline state: channel buffer, backend write sequence, and the ghost
sequence of accepted submissions. -/
structure PState where
  queue : List LogEntry
  written : List LogEntry
  accepted : List LogEntry
deriving DecidableEq

/-- The pipeline state right after `NewLogManager` in async mode. -/
def initPState : PState := ⟨[], [], []⟩

/-- One transition of the running pipeline: a producer's send succeeding
(buffer not full), a producer's submission timing out on a full buffer
(no state change), or the consumer goroutine receiving the oldest queued
entry and handing it to `backend.Write`. -/
inductive PStep : PState → PState → Prop where
  | submitOk (s : PState) (e : LogEntry) (h : s.queue.length < queueCapacity) :
      PStep s ⟨s.queue ++ [e], s.written, s.accepted ++ [e]⟩
  | submitSaturated (s : PState) (e : LogEntry)
      (h : queueCapacity ≤ s.queue.length) : PStep s s
  | consume (s : PState) (e : LogEntry) (q : List LogEntry)
      (h : s.queue = e :: q) : PStep s ⟨q, s.written ++ [e], s.accepted⟩

/-- Pipeline states reachable from the freshly constructed manager. -/
inductive PReach : PState → Prop where
  | init : PReach initPState
  | step (s t : PState) : PReach s → PStep s t → PReach t

/-- Model of `Close` on the async manager, called once the producers have
stopped: `close(done)` switches the worker to its drain loop, which
receives every remaining queued entry in FIFO order and writes each to the
backend, then exits; `wg.Wait()` returns only after that. -/
def closeAsync (s : PState) : PState :=
  ⟨[], s.written ++ s.queue, s.accepted⟩

/-- The abstract backend read with no level and no filter: every entry that
was handed to `backend.Write` is returned. -/
def backendReadAll (written : List LogEntry) : List LogEntry := written

/-! ## Error-path observer notification (`WriteLog` sync branch and the
`startAsyncWorker` consumer loop)

The backend write result is abstracted as `Option Chars` (the error
message, or `none` for success); handlers are identified by tags and a
notification is the pair (handler, entry). -/

/-- The error wrapping of the sync branch:
`fmt.Errorf("failed to write log: %w", err)`. -/
def wrapWriteErr (msg : Chars) : Chars := "failed to write log: ".data ++ msg

/-- The diagnostic the running consumer prints on a failed write:
`fmt.Printf("async log write error: %v\n", err)`. -/
def asyncDiag (msg : Chars) : Chars := "async log write error: ".data ++ msg ++ ['\n']

/-- Fanout to a snapshot of the handler registry: each registered handler's
`Handle` is invoked once with the entry, in registration order. -/
def notifySnapshot (handlers : List Nat) (e : LogEntry) : List (Nat × LogEntry) :=
  handlers.map (fun h => (h, e))

/-- Model of the sync branch of `WriteLog`: on a backend write error the
wrapped error is returned immediately and the handler loop is never
reached; on success the handlers are notified.  The first component is the
returned error, the second the notifications performed. -/
def syncWriteLogObs (writeRes : Option Chars) (handlers : List Nat)
    (e : LogEntry) : Option Chars × List (Nat × LogEntry) :=
  match writeRes with
  | some m => (some (wrapWriteErr m), [])
  | none => (none, notifySnapshot handlers e)

/-- Model of one iteration of the running consumer loop in
`startAsyncWorker`: a failed backend write only prints a diagnostic, and
the handler fanout runs regardless.  The first component is the list of
diagnostics emitted, the second the notifications performed.  (The drain
loop after `done` differs only in dropping the diagnostic.) -/
def asyncConsumeObs (writeRes : Option Chars) (handlers : List Nat)
    (e : LogEntry) : List Chars × List (Nat × LogEntry) :=
  match writeRes with
  | some m => ([asyncDiag m], notifySnapshot handlers e)
  | none => ([], notifySnapshot handlers e)

/-! ## Concrete fixtures used by witnesses and counterexamples -/

/-- A concrete valid instant: 2025-01-01T12:00:00Z. -/
def t0 : DateTime := ⟨2025, 1, 1, 12, 0, 0⟩

/-- A concrete INFO entry. -/
def eA : LogEntry := ⟨"INFO".data, "alpha".data, t0⟩

/-- A concrete WARN entry. -/
def eB : LogEntry := ⟨"WARN".data, "beta".data, t0⟩

/-! ## Pipeline lemmas -/

/-- Invariant of the running pipeline: the accepted submissions are exactly
the entries already written to the backend followed by the entries still
buffered, in order.  Sends into a Go buffered channel append at the back
and the single consumer receives from the front. -/
theorem preach_split (s : PState) (h : PReach s) :
    s.accepted = s.written ++ s.queue := by
  induction h with
  | init => rfl
  | step s t _ hstep ih =>
    cases hstep with
    | submitOk e h => simp [ih, List.append_assoc]
    | submitSaturated e h => exact ih
    | consume e q hq => simp [ih, hq]

/-- C1.  In asynchronous mode, after `close` returns every entry whose
submission returned success has been handed to `backend.Write` exactly
once (the drain loop flushes the whole queue before the worker exits), so
the abstract backend read with no filter includes every accepted entry:
no accepted entry is lost across a graceful shutdown. -/
theorem async_close_delivers_every_accepted (s : PState) (h : PReach s) :
    (closeAsync s).written = s.accepted ∧
    (∀ e : LogEntry, ((closeAsync s).written.count e = s.accepted.count e)) ∧
    (∀ e : LogEntry, e ∈ s.accepted → e ∈ backendReadAll (closeAsync s).written) := by
  have hw : (closeAsync s).written = s.accepted := (preach_split s h).symm
  exact ⟨hw, fun e => by rw [hw], fun e he => by simpa [backendReadAll, hw] using he⟩

/-- Witness for C1: a concrete reachable state (submit `eA`, consume it,
submit `eB`), closed; both accepted entries are delivered. -/
theorem async_close_delivers_every_accepted_witness :
    (closeAsync ⟨[eB], [eA], [eA, eB]⟩).written = [eA, eB] :=
  (async_close_delivers_every_accepted ⟨[eB], [eA], [eA, eB]⟩
    (PReach.step _ _
      (PReach.step _ _
        (PReach.step _ _ PReach.init (PStep.submitOk initPState eA (by decide)))
        (PStep.consume _ eA [] rfl))
      (PStep.submitOk _ eB (by decide)))).1

/-- C2.  The async `WriteLog` branch: the queue capacity is the fixed 1000
of `make(chan LogEntry, 1000)` and the backpressure timeout is 100 ms; a
submission succeeds (and the entry is enqueued at the back) exactly when
the bounded queue has free space within the timeout window, and otherwise
fails with the channel-full error with the entry never enqueued, so a
submission never blocks indefinitely. -/
theorem async_submit_backpressure (q : List LogEntry) (e : LogEntry) :
    queueCapacity = 1000 ∧ backpressureTimeoutMillis = 100 ∧
    (q.length < queueCapacity → writeLogAsync q e = (.ok, q ++ [e])) ∧
    (queueCapacity ≤ q.length → writeLogAsync q e = (.queueSaturated, q)) := by
  refine ⟨rfl, rfl, fun h => ?_, fun h => ?_⟩
  · simp [writeLogAsync, h]
  · simp [writeLogAsync, Nat.not_lt.mpr h]

/-- Witness for C2: on an empty queue the submission of `eA` succeeds. -/
theorem async_submit_backpressure_witness :
    writeLogAsync [] eA = (.ok, [eA]) :=
  (async_submit_backpressure [] eA).2.2.1 (by decide)

/-- C3.  Per-producer FIFO: in every reachable pipeline state the sequence
of entries handed to `backend.Write` is exactly the first `written.length`
accepted submissions in submission order, so whenever two submissions of
one producer are both accepted, the backend write of the earlier one
happens before the write of the later one. -/
theorem async_fifo_delivery_order (s : PState) (h : PReach s) :
    s.written = s.accepted.take s.written.length := by
  rw [preach_split s h, List.take_left]

/-- Witness for C3: in the concrete reachable state of the C1 witness the
written sequence is the first accepted submission. -/
theorem async_fifo_delivery_order_witness :
    ([eA] : List LogEntry) = [eA, eB].take ([eA] : List LogEntry).length :=
  async_fifo_delivery_order ⟨[eB], [eA], [eA, eB]⟩
    (PReach.step _ _
      (PReach.step _ _
        (PReach.step _ _ PReach.init (PStep.submitOk initPState eA (by decide)))
        (PStep.consume _ eA [] rfl))
      (PStep.submitOk _ eB (by decide)))

/-- C9.  Divergence of the two modes on a failed backend write: the sync
branch of `WriteLog` returns the wrapped error and never reaches the
handler loop, while one iteration of the async consumer prints the
diagnostic and still notifies every registered handler once, in order. -/
theorem write_failure_mode_divergence (m : Chars) (handlers : List Nat)
    (e : LogEntry) :
    syncWriteLogObs (some m) handlers e = (some (wrapWriteErr m), []) ∧
    asyncConsumeObs (some m) handlers e = ([asyncDiag m], notifySnapshot handlers e) ∧
    (asyncConsumeObs (some m) handlers e).2.length = handlers.length := by
  refine ⟨rfl, rfl, ?_⟩
  simp [asyncConsumeObs, notifySnapshot]

/-- C10.  Both time bounds of `LogFilter` are inclusive: with both bounds
set and no keyword, an entry passes `applyFilter` exactly when its
timestamp is at or after `StartTime` and at or before `EndTime` (only
instants strictly before the start or strictly after the end are
excluded); in particular an entry whose timestamp equals both bounds
passes. -/
theorem filter_time_bounds_inclusive (e : LogEntry) (st en : DateTime) :
    (applyFilter e ⟨some st, some en, []⟩ = true ↔
      dtKey st ≤ dtKey e.timestamp ∧ dtKey e.timestamp ≤ dtKey en) ∧
    applyFilter e ⟨some e.timestamp, some e.timestamp, []⟩ = true := by
  constructor
  · by_cases h1 : dtKey e.timestamp < dtKey st <;>
      by_cases h2 : dtKey en < dtKey e.timestamp <;>
      (simp [applyFilter, dtBefore, dtAfter, h1, h2]; try omega)
  · simp [applyFilter, dtBefore, dtAfter]

/-- C4.  The claim describes the intended read-filter-truncate-rewrite
behaviour, but `FileBackend.ClearLogs` acquires the non-reentrant mutex
`fb.mu` and then calls `fb.Read` (and later `fb.Write`), each of which
acquires `fb.mu` again, so on every initialized backend the call blocks
forever (`none`) and never removes or returns anything. -/
theorem clearLogs_self_deadlock (st : FBState) (b : DateTime)
    (hm : st.muHeld = false) (ho : st.fileOpen = true) :
    fileClearLogs st b = none := by
  simp [fileClearLogs, fileRead, hm, ho]

/-- Witness for C4: the deadlock on a concrete freshly initialized backend
holding one record line. -/
theorem clearLogs_self_deadlock_witness :
    fileClearLogs ⟨false, true, ["[2025-01-01T12:00:00Z] INFO : alpha".data]⟩ t0
      = none :=
  clearLogs_self_deadlock ⟨false, true, ["[2025-01-01T12:00:00Z] INFO : alpha".data]⟩
    t0 rfl rfl

/-- Modelled from the spec: the encoding the claim asserts, with the level
LEFT-padded to width 5 (padding spaces before the level name). -/
def lineLeftPadSpec (e : LogEntry) : Chars :=
  '[' :: rfc3339 e.timestamp ++ ']' :: ' ' ::
    (List.replicate (5 - e.level.length) ' ' ++ e.level) ++ ':' :: ' ' :: e.message

/-- Counterexample for C5: for the 4-character level INFO the code produces
`[2025-01-01T12:00:00Z] INFO : boot` — the padding space sits after the
level name, not before it as the claim states. -/
theorem level_padding_not_left_cex :
    lineOf ⟨"INFO".data, "boot".data, t0⟩
      = "[2025-01-01T12:00:00Z] INFO : boot".data ∧
    lineOf ⟨"INFO".data, "boot".data, t0⟩
      ≠ lineLeftPadSpec ⟨"INFO".data, "boot".data, t0⟩ := by
  decide

/-- C5 (amended).  Each entry is encoded as the single line
`[<RFC3339 timestamp>] <level>: <message>` with the level LEFT-JUSTIFIED
in a field of width 5 — `fmt.Sprintf`'s `%-5s` — i.e. a level shorter
than 5 characters is padded with spaces placed after (to the right of)
the level name, and the level name itself starts the field. -/
theorem level_field_left_justified (e : LogEntry) :
    lineOf e = '[' :: rfc3339 e.timestamp ++ ']' :: ' ' ::
        (e.level ++ List.replicate (5 - e.level.length) ' ') ++
        ':' :: ' ' :: e.message ∧
    (goPadRight e.level 5).length = max 5 e.level.length ∧
    (goPadRight e.level 5).take e.level.length = e.level := by
  refine ⟨rfl, ?_, ?_⟩
  · simp only [goPadRight, List.length_append, List.length_replicate]
    omega
  · exact List.take_left e.level _

/-- The scanner loop as a filter of the parsed lines: `Read` returns
exactly the entries of the lines that parse, restricted to the requested
level and filter, in file order. -/
theorem readLines_eq_filterMap (ls : List Chars) (lvl : Chars) (f : LogFilter) :
    readLines ls lvl f =
      (ls.filterMap parseLine).filter
        (fun e => (lvl.isEmpty || decide (e.level = lvl)) && applyFilter e f) := by
  induction ls with
  | nil => rfl
  | cons line ls ih =>
    unfold readLines
    cases hp : parseLine line with
    | none => simp [List.filterMap_cons, hp, ih]
    | some e =>
      by_cases h1 : lvl.isEmpty <;> by_cases h2 : e.level = lvl <;>
        cases h3 : applyFilter e f <;>
        simp [List.filterMap_cons, hp, ih, h1, h2, h3]

/-- The zero-value filter `LogFilter{}` lets every entry through. -/
theorem applyFilter_emptyFilter (e : LogEntry) : applyFilter e emptyFilter = true := rfl

/-- `readLines` distributes over file concatenation. -/
theorem readLines_append (a b : List Chars) (lvl : Chars) (f : LogFilter) :
    readLines (a ++ b) lvl f = readLines a lvl f ++ readLines b lvl f := by
  rw [readLines_eq_filterMap, List.filterMap_append, List.filter_append,
    ← readLines_eq_filterMap, ← readLines_eq_filterMap]

/-- C7.  `FileBackend.Read` on any mixture of lines returns exactly the
entries of the lines that parse (in order) and no error: a line that fails
the record shape — no opening bracket, an unparsable timestamp, or no
level/message colon — is silently skipped and never produces a read
error. -/
theorem read_tolerates_malformed_lines (ls : List Chars) :
    fileRead ⟨false, true, ls⟩ [] emptyFilter
      = some ((none, ls.filterMap parseLine), ⟨false, true, ls⟩) ∧
    parseLine "no opening bracket".data = none ∧
    parseLine "[not-a-timestamp] INFO : x".data = none ∧
    parseLine "[2025-01-01T12:00:00Z] no colon separator".data = none := by
  refine ⟨?_, by decide, by decide, by decide⟩
  simp only [fileRead, Bool.false_eq_true, if_false, Bool.true_eq_false,
    readLines_eq_filterMap]
  refine congrArg some (congrArg (fun l => ((none, l), _)) ?_)
  rw [List.filter_eq_self]
  intro e _
  simp [applyFilter_emptyFilter]

/-- C8.  `readLogs` semantics: an empty level matches every entry and a
set level matches exactly that level, and the filter's conditions —
keyword containment, start bound, end bound — are conjoined: an entry
survives `applyFilter` exactly when every condition that is specified
holds. -/
theorem read_filter_conjunction (ls : List Chars) (lvl : Chars) (f : LogFilter) :
    readLines ls lvl f =
      (ls.filterMap parseLine).filter
        (fun e => (lvl.isEmpty || decide (e.level = lvl)) && applyFilter e f) ∧
    ∀ e : LogEntry,
      applyFilter e f =
        ((f.contains.isEmpty || containsSub e.message f.contains) &&
         (match f.startTime with
          | some st => !dtBefore e.timestamp st
          | none => true) &&
         (match f.endTime with
          | some en => !dtAfter e.timestamp en
          | none => true)) := by
  refine ⟨readLines_eq_filterMap ls lvl f, fun e => ?_⟩
  unfold applyFilter
  obtain ⟨st, en, c⟩ := f
  cases st <;> cases en <;>
    cases hc : (c : Chars).isEmpty <;>
    cases hm : containsSub e.message c <;>
    simp [hc, hm]

/-! ## Round-trip lemmas for the file backend encoding -/

theorem digitChar_eq_star (n : Nat) (h : 16 ≤ n) : Nat.digitChar n = '*' := by
  unfold Nat.digitChar
  repeat rw [if_neg (by omega)]

theorem digitChar_ne_rbracket (n : Nat) : Nat.digitChar n ≠ ']' := by
  rcases Nat.lt_or_ge n 16 with h | h
  · exact (show ∀ m, m < 16 → Nat.digitChar m ≠ ']' by decide) n h
  · rw [digitChar_eq_star n h]; decide

theorem digitChar_ne_newline (n : Nat) : Nat.digitChar n ≠ '\n' := by
  rcases Nat.lt_or_ge n 16 with h | h
  · exact (show ∀ m, m < 16 → Nat.digitChar m ≠ '\n' by decide) n h
  · rw [digitChar_eq_star n h]; decide

theorem digitVal_digitChar : ∀ n, n < 10 → digitVal (Nat.digitChar n) = some n := by
  decide

theorem digits2_pad (n : Nat) (h : n < 100) :
    digits2 (Nat.digitChar (n / 10)) (Nat.digitChar (n % 10)) = some n := by
  unfold digits2
  rw [digitVal_digitChar _ (by omega), digitVal_digitChar _ (by omega)]
  simp only [Option.bind_eq_bind, Option.some_bind]
  exact congrArg some (by omega)

theorem digits4_pad4 (n : Nat) (h : n < 10000) :
    digits4 (Nat.digitChar (n / 1000)) (Nat.digitChar (n / 100 % 10))
      (Nat.digitChar (n / 10 % 10)) (Nat.digitChar (n % 10)) = some n := by
  unfold digits4 digits2
  rw [digitVal_digitChar _ (by omega), digitVal_digitChar _ (by omega),
    digitVal_digitChar _ (by omega), digitVal_digitChar _ (by omega)]
  simp only [Option.bind_eq_bind, Option.some_bind]
  exact congrArg some (by omega)

theorem daysInMonth_le_31 (y m : Nat) : daysInMonth y m ≤ 31 := by
  unfold daysInMonth
  split_ifs <;> omega

theorem parseRFC3339_rfc3339 (t : DateTime) (h : t.Valid) :
    parseRFC3339 (rfc3339 t) = some t := by
  obtain ⟨y, mo, d, hh, mi, se⟩ := t
  unfold DateTime.Valid at h
  dsimp only at h
  obtain ⟨h1, h2, h3, h4, h5, h6, h7, h8⟩ := h
  have hy : y < 10000 := by omega
  have hmo : mo < 100 := by omega
  have hd : d < 100 := by have h31 := daysInMonth_le_31 y mo; omega
  have hhh : hh < 100 := by omega
  have hmi : mi < 100 := by omega
  have hse : se < 100 := by omega
  show parseRFC3339
    [Nat.digitChar (y / 1000), Nat.digitChar (y / 100 % 10),
     Nat.digitChar (y / 10 % 10), Nat.digitChar (y % 10), '-',
     Nat.digitChar (mo / 10), Nat.digitChar (mo % 10), '-',
     Nat.digitChar (d / 10), Nat.digitChar (d % 10), 'T',
     Nat.digitChar (hh / 10), Nat.digitChar (hh % 10), ':',
     Nat.digitChar (mi / 10), Nat.digitChar (mi % 10), ':',
     Nat.digitChar (se / 10), Nat.digitChar (se % 10), 'Z'] = some ⟨y, mo, d, hh, mi, se⟩
  simp only [parseRFC3339, digits4_pad4 y hy, digits2_pad mo hmo,
    digits2_pad d hd, digits2_pad hh hhh, digits2_pad mi hmi,
    digits2_pad se hse, Option.bind_eq_bind, Option.some_bind]
  rw [if_pos ⟨h2, h3, h4, h5, h6, h7, h8⟩]





theorem not_mem_rfc3339 (t : DateTime) (c : Char)
    (hd : ∀ n, Nat.digitChar n ≠ c) (h1 : c ≠ '-') (h2 : c ≠ 'T') (h3 : c ≠ ':')
    (h4 : c ≠ 'Z') : c ∉ rfc3339 t := by
  intro hm
  simp only [rfc3339, pad4, pad2, List.mem_append, List.mem_cons,
    List.mem_singleton, List.not_mem_nil] at hm
  have hd' : ∀ n, c ≠ Nat.digitChar n := fun n => (hd n).symm
  tauto

theorem idxOf_append_cons (c : Char) (a b : Chars) (h : c ∉ a) :
    idxOf c (a ++ c :: b) = some a.length := by
  induction a with
  | nil => simp [idxOf]
  | cons x xs ih =>
    simp only [List.mem_cons, not_or] at h
    rw [List.cons_append]
    unfold idxOf
    rw [if_neg (fun hc : x = c => h.1 hc.symm), ih h.2]
    rfl

theorem splitOnceColon_append (a b : Chars) (h : ':' ∉ a) :
    splitOnceColon (a ++ ':' :: b) = some (a, b) := by
  induction a with
  | nil => simp [splitOnceColon]
  | cons x xs ih =>
    simp only [List.mem_cons, not_or] at h
    rw [List.cons_append]
    unfold splitOnceColon
    rw [if_neg (fun hc : x = ':' => h.1 hc.symm), ih h.2]
    rfl

theorem splitOnNl_no_newline (l : Chars) (h : '\n' ∉ l) : splitOnNl l = [l] := by
  induction l with
  | nil => rfl
  | cons c cs ih =>
    simp only [List.mem_cons, not_or] at h
    unfold splitOnNl
    rw [if_neg (fun hc : c = '\n' => h.1 hc.symm), ih h.2]

theorem trimSpace_length_le (l : Chars) : (trimSpace l).length ≤ l.length := by
  unfold trimSpace
  calc ((l.dropWhile isSpaceChar).reverse.dropWhile isSpaceChar).reverse.length
      = ((l.dropWhile isSpaceChar).reverse.dropWhile isSpaceChar).length :=
        List.length_reverse _
    _ ≤ (l.dropWhile isSpaceChar).reverse.length :=
        (List.dropWhile_suffix _).length_le
    _ = (l.dropWhile isSpaceChar).length := List.length_reverse _
    _ ≤ l.length := (List.dropWhile_suffix _).length_le

theorem dropWhile_ws_eq_self (l : Chars) (h : trimSpace l = l) :
    l.dropWhile isSpaceChar = l := by
  cases l with
  | nil => rfl
  | cons c cs =>
    cases hsc : isSpaceChar c with
    | false => simp [List.dropWhile_cons, hsc]
    | true =>
      exfalso
      have h1 : trimSpace (c :: cs) = trimSpace cs := by
        unfold trimSpace
        rw [List.dropWhile_cons, if_pos hsc]
      have h2 := trimSpace_length_le cs
      rw [h1] at h
      have h3 := congrArg List.length h
      simp only [List.length_cons] at h3
      omega

theorem dropWhile_ws_reverse_eq_self (l : Chars) (h : trimSpace l = l) :
    l.reverse.dropWhile isSpaceChar = l.reverse := by
  have h1 := dropWhile_ws_eq_self l h
  have h2 : ((l.dropWhile isSpaceChar).reverse.dropWhile isSpaceChar).reverse = l := h
  rw [h1] at h2
  calc l.reverse.dropWhile isSpaceChar
      = (l.reverse.dropWhile isSpaceChar).reverse.reverse :=
        (List.reverse_reverse _).symm
    _ = l.reverse := by rw [h2]

theorem trimSpace_space_cons (l : Chars) : trimSpace (' ' :: l) = trimSpace l := by
  unfold trimSpace
  rw [List.dropWhile_cons, if_pos (by decide)]

theorem dropWhile_ws_replicate (k : Nat) (l : Chars) :
    (List.replicate k ' ' ++ l).dropWhile isSpaceChar = l.dropWhile isSpaceChar := by
  induction k with
  | zero => simp
  | succ k ih =>
    rw [List.replicate_succ, List.cons_append, List.dropWhile_cons,
      if_pos (by decide), ih]

theorem trimSpace_append_replicate (k : Nat) (l : Chars) (h : trimSpace l = l) :
    trimSpace (l ++ List.replicate k ' ') = l := by
  cases l with
  | nil =>
    unfold trimSpace
    rw [List.nil_append]
    rw [show List.replicate k ' ' = List.replicate k ' ' ++ [] from (List.append_nil _).symm]
    rw [dropWhile_ws_replicate]
    simp
  | cons c cs =>
    have h1 : (c :: cs).dropWhile isSpaceChar = c :: cs := dropWhile_ws_eq_self _ h
    unfold trimSpace
    rw [List.dropWhile_append, h1]
    simp only [List.isEmpty_cons, Bool.false_eq_true, if_false]
    rw [List.reverse_append, List.reverse_replicate, dropWhile_ws_replicate,
      dropWhile_ws_reverse_eq_self _ h]
    simp

/-- Definitional reduction of `parseLine` on a line starting with `'['`. -/
theorem parseLine_bracket (X : Chars) :
    parseLine ('[' :: X) =
      match idxOf ']' ('[' :: X) with
      | none => none
      | some e =>
        match parseRFC3339 ((('[' :: X).drop 1).take (e - 1)) with
        | none => none
        | some ts =>
          match splitOnceColon (trimSpace (('[' :: X).drop (e + 1))) with
          | none => none
          | some (lvlPart, msgPart) =>
            some ⟨trimSpace lvlPart, trimSpace msgPart, ts⟩ := rfl

/-- The three successful steps of `parseLine` combined. -/
theorem parseLine_steps (X : Chars) (idx : Nat) (t : DateTime) (P M : Chars)
    (hidx : idxOf ']' ('[' :: X) = some idx)
    (hts : parseRFC3339 ((('[' :: X).drop 1).take (idx - 1)) = some t)
    (hsp : splitOnceColon (trimSpace (('[' :: X).drop (idx + 1))) = some (P, M)) :
    parseLine ('[' :: X) = some ⟨trimSpace P, trimSpace M, t⟩ := by
  rw [parseLine_bracket, hidx]
  simp only [hts, hsp]

theorem colon_not_ws : isSpaceChar ':' = false := rfl

/-- Trimming and colon-splitting the rendered tail
`<level><pad> : <message>` recovers the level and the message, provided
both are trim-invariant and the level is colon-free. -/
theorem tail_trim_split (lvl msg : Chars) (k : Nat)
    (hlt : trimSpace lvl = lvl) (hlc : ':' ∉ lvl) (hmt : trimSpace msg = msg) :
    ∃ P M : Chars,
      splitOnceColon (trimSpace ((lvl ++ List.replicate k ' ') ++ ':' :: ' ' :: msg))
          = some (P, M) ∧ trimSpace P = lvl ∧ trimSpace M = msg := by
  have hcolP : ':' ∉ lvl ++ List.replicate k ' ' := by
    intro hm
    rcases List.mem_append.mp hm with hm | hm
    · exact hlc hm
    · exact absurd (List.eq_of_mem_replicate hm) (by decide)
  cases lvl with
  | nil =>
    cases msg with
    | nil =>
      refine ⟨[], [], ?_, rfl, rfl⟩
      have h1 : (([] : Chars) ++ List.replicate k ' ') ++ ':' :: ' ' :: ([] : Chars)
          = List.replicate k ' ' ++ [':', ' '] := by simp
      rw [h1]
      have h2 : trimSpace (List.replicate k ' ' ++ [':', ' ']) = [':'] := by
        unfold trimSpace
        rw [dropWhile_ws_replicate]
        decide
      rw [h2]
      rfl
    | cons m ms =>
      refine ⟨[], ' ' :: m :: ms, ?_, rfl, ?_⟩
      · have h1 : (([] : Chars) ++ List.replicate k ' ') ++ ':' :: ' ' :: (m :: ms)
            = List.replicate k ' ' ++ ':' :: ' ' :: (m :: ms) := by simp
        rw [h1]
        have h2 : trimSpace (List.replicate k ' ' ++ ':' :: ' ' :: (m :: ms))
            = ':' :: ' ' :: (m :: ms) := by
          unfold trimSpace
          rw [dropWhile_ws_replicate, List.dropWhile_cons, if_neg (by decide)]
          have h3 : (':' :: ' ' :: (m :: ms)).reverse
              = (m :: ms).reverse ++ [' '] ++ [':'] := by simp
          rw [h3, List.append_assoc, List.dropWhile_append,
            dropWhile_ws_reverse_eq_self _ hmt]
          rw [if_neg (by simp)]
          simp
        rw [h2]
        rfl
      · rw [trimSpace_space_cons]
        exact hmt
  | cons c cs =>
    have hlne : ((c :: cs).dropWhile isSpaceChar).isEmpty = false := by
      rw [dropWhile_ws_eq_self _ hlt]
      rfl
    have hleft : (((c :: cs) ++ List.replicate k ' ') ++ ':' :: ' ' :: msg).dropWhile isSpaceChar
        = ((c :: cs) ++ List.replicate k ' ') ++ ':' :: ' ' :: msg := by
      rw [List.append_assoc, List.dropWhile_append, hlne]
      rw [if_neg (by simp)]
      rw [dropWhile_ws_eq_self _ hlt]
    cases msg with
    | nil =>
      refine ⟨(c :: cs) ++ List.replicate k ' ', [], ?_, trimSpace_append_replicate k _ hlt, rfl⟩
      have h2 : trimSpace (((c :: cs) ++ List.replicate k ' ') ++ ':' :: ' ' :: ([] : Chars))
          = ((c :: cs) ++ List.replicate k ' ') ++ [':'] := by
        unfold trimSpace
        rw [hleft]
        have h3 : ((((c :: cs) ++ List.replicate k ' ')) ++ ':' :: ' ' :: ([] : Chars)).reverse
            = ' ' :: ':' :: ((c :: cs) ++ List.replicate k ' ').reverse := by simp
        rw [h3, List.dropWhile_cons, if_pos (by decide), List.dropWhile_cons,
          if_neg (by decide)]
        simp
      rw [h2, splitOnceColon_append _ _ hcolP]
    | cons m ms =>
      refine ⟨(c :: cs) ++ List.replicate k ' ', ' ' :: m :: ms, ?_,
        trimSpace_append_replicate k _ hlt, ?_⟩
      · have h2 : trimSpace (((c :: cs) ++ List.replicate k ' ') ++ ':' :: ' ' :: (m :: ms))
            = ((c :: cs) ++ List.replicate k ' ') ++ ':' :: ' ' :: (m :: ms) := by
          unfold trimSpace
          rw [hleft]
          have h3 : ((((c :: cs) ++ List.replicate k ' ')) ++ ':' :: ' ' :: (m :: ms)).reverse
              = (m :: ms).reverse ++ [' '] ++ [':'] ++ ((c :: cs) ++ List.replicate k ' ').reverse := by
            simp
          rw [h3, List.append_assoc, List.append_assoc, List.dropWhile_append,
            dropWhile_ws_reverse_eq_self _ hmt]
          rw [if_neg (by simp)]
          simp
        rw [h2, splitOnceColon_append _ _ hcolP]
      · rw [trimSpace_space_cons]
        exact hmt

/-- Parsing the line rendered for an entry recovers the entry, provided
the timestamp is a valid second-granular instant and the level and message
are trim-invariant, the level colon-free. -/
theorem parseLine_lineOf (e : LogEntry) (hts : e.timestamp.Valid)
    (hlt : trimSpace e.level = e.level) (hlc : ':' ∉ e.level)
    (hmt : trimSpace e.message = e.message) :
    parseLine (lineOf e) = some e := by
  obtain ⟨lvl, msg, t⟩ := e
  dsimp only at hts hlt hlc hmt
  have hbr : ']' ∉ rfc3339 t :=
    not_mem_rfc3339 t ']' digitChar_ne_rbracket (by decide) (by decide) (by decide)
      (by decide)
  have hline : lineOf ⟨lvl, msg, t⟩
      = '[' :: (rfc3339 t ++ ']' ::
          (' ' :: ((lvl ++ List.replicate (5 - lvl.length) ' ') ++ ':' :: ' ' :: msg))) := by
    simp [lineOf, goPadRight]
  obtain ⟨P, M, hsp, hPt, hMt⟩ :=
    tail_trim_split lvl msg (5 - lvl.length) hlt hlc hmt
  rw [hline]
  rw [parseLine_steps _ ((rfc3339 t).length + 1) t P M ?_ ?_ ?_, hPt, hMt]
  · unfold idxOf
    rw [if_neg (by decide), idxOf_append_cons ']' _ _ hbr]
    rfl
  · have hd : (('[' :: (rfc3339 t ++ ']' ::
        (' ' :: ((lvl ++ List.replicate (5 - lvl.length) ' ') ++ ':' :: ' ' :: msg)))).drop 1)
        = rfc3339 t ++ ']' ::
          (' ' :: ((lvl ++ List.replicate (5 - lvl.length) ' ') ++ ':' :: ' ' :: msg)) := rfl
    rw [hd, Nat.add_sub_cancel, List.take_left]
    exact parseRFC3339_rfc3339 t hts
  · have hd : (('[' :: (rfc3339 t ++ ']' ::
        (' ' :: ((lvl ++ List.replicate (5 - lvl.length) ' ') ++ ':' :: ' ' :: msg)))).drop
          ((rfc3339 t).length + 1 + 1))
        = ' ' :: ((lvl ++ List.replicate (5 - lvl.length) ' ') ++ ':' :: ' ' :: msg) := by
      have h1 : ('[' :: (rfc3339 t ++ ']' ::
          (' ' :: ((lvl ++ List.replicate (5 - lvl.length) ' ') ++ ':' :: ' ' :: msg))))
          = ('[' :: rfc3339 t ++ [']']) ++
            (' ' :: ((lvl ++ List.replicate (5 - lvl.length) ' ') ++ ':' :: ' ' :: msg)) := by
        simp
      rw [h1]
      have h2 : (rfc3339 t).length + 1 + 1 = ('[' :: rfc3339 t ++ [']']).length := by
        simp
      rw [h2, List.drop_left]
    rw [hd, trimSpace_space_cons]
    exact hsp

theorem newline_not_mem_lineOf (e : LogEntry) (hl : '\n' ∉ e.level)
    (hm : '\n' ∉ e.message) : '\n' ∉ lineOf e := by
  have hnl : '\n' ∉ rfc3339 e.timestamp :=
    not_mem_rfc3339 _ '\n' digitChar_ne_newline (by decide) (by decide) (by decide)
      (by decide)
  simp [lineOf, goPadRight, List.mem_append, List.mem_cons, List.mem_replicate,
    hl, hm, hnl]

/-- C6 (amended).  In synchronous mode a successful `WriteLog` is a
successful `FileBackend.Write`, and a subsequent `Read` with empty level
and zero-value filter includes the written entry — for every entry whose
timestamp is a valid second-granular instant and whose level and message
survive the parser's `strings.TrimSpace` normalization: level and message
free of leading/trailing whitespace and of newlines, level free of colons.
(The unamended claim fails because `Read` trims the message.) -/
theorem sync_write_then_read_includes (st : FBState) (e : LogEntry)
    (hmu : st.muHeld = false) (ho : st.fileOpen = true)
    (hts : e.timestamp.Valid)
    (hlt : trimSpace e.level = e.level) (hlc : ':' ∉ e.level)
    (hln : '\n' ∉ e.level)
    (hmt : trimSpace e.message = e.message) (hmn : '\n' ∉ e.message) :
    fileWrite st e = some (none, ⟨false, true, fileWriteChunk st.content e⟩) ∧
    e ∈ readLines (fileWriteChunk st.content e) [] emptyFilter := by
  obtain ⟨mu, fo, content⟩ := st
  dsimp only at hmu ho ⊢
  subst hmu
  subst ho
  constructor
  · rfl
  · rw [fileWriteChunk, splitOnNl_no_newline _ (newline_not_mem_lineOf e hln hmn),
      readLines_append]
    refine List.mem_append.mpr (Or.inr ?_)
    unfold readLines
    rw [parseLine_lineOf e hts hlt hlc hmt]
    simp [applyFilter_emptyFilter]

/-- Witness for C6: writing the concrete INFO entry into an empty backend
and reading it back. -/
theorem sync_write_then_read_includes_witness :
    fileWrite ⟨false, true, []⟩ eA
        = some (none, ⟨false, true, fileWriteChunk [] eA⟩) ∧
    eA ∈ readLines (fileWriteChunk [] eA) [] emptyFilter :=
  sync_write_then_read_includes ⟨false, true, []⟩ eA rfl rfl (by decide) (by decide)
    (by decide) (by decide) (by decide) (by decide)

/-- Counterexample for C6 as stated: the entry with message `" hi "` is
accepted by `Write`, but `Read` returns the entry with the trimmed message
`"hi"` — the original entry is not in the read result. -/
theorem write_read_loses_whitespace_cex :
    (⟨"INFO".data, " hi ".data, t0⟩ : LogEntry) ∉
      readLines (fileWriteChunk [] ⟨"INFO".data, " hi ".data, t0⟩) [] emptyFilter ∧
    readLines (fileWriteChunk [] ⟨"INFO".data, " hi ".data, t0⟩) [] emptyFilter
      = [⟨"INFO".data, "hi".data, t0⟩] := by
  decide

end Aidmslog
